import Mathlib

/-
  Verification of the rendering core of the `o` terminal editor.

  Go strings are modelled as lists of Unicode code points (`List Char`);
  Go `int` values as `Int`, `uint` counters as `Nat` where the source
  guarantees non-negativity.  Each definition is a direct transcription of
  the Go function it is named after; collaborators whose source is not in
  this repository snapshot (the `syntax`, `textoutput` and `vt100`
  packages, and `quotestate.go` / `rainbow.go`) appear as parameters.
-/

set_option maxHeartbeats 1000000

/-- Convert a Lean string literal to the rune-slice representation used here. -/
def strL (s : String) : List Char := s.data

/-- The backtick rune, Go's raw-string delimiter (written via its code point). -/
def backtickChar : Char := Char.ofNat 96

/-- Characters matched by Go's unicode.IsSpace in the Latin-1 range:
space, tab, newline, vertical tab, form feed, carriage return, NEL, NBSP. -/
def isSpaceGo (c : Char) : Bool :=
  c = ' ' || c = '\t' || c = '\n' || c = '\x0b' || c = '\x0c' || c = '\r' ||
  c = Char.ofNat 0x85 || c = Char.ofNat 0xa0

/-- strings.TrimLeftFunc(s, unicode.IsSpace). -/
def trimLeftStr (s : List Char) : List Char := s.dropWhile isSpaceGo

/-- strings.TrimRightFunc(s, unicode.IsSpace). -/
def trimRightStr (s : List Char) : List Char := (s.reverse.dropWhile isSpaceGo).reverse

/-- strings.TrimSpace. -/
def trimSpaceStr (s : List Char) : List Char := trimRightStr (trimLeftStr s)

/-- strings.HasPrefix(s, p). -/
def hasPrefixStr (s p : List Char) : Bool := p.isPrefixOf s

/-- strings.HasSuffix(s, p). -/
def hasSuffixStr (s p : List Char) : Bool := p.isSuffixOf s

/-- strings.Contains(s, sub). -/
def containsStr (s sub : List Char) : Bool :=
  if sub.isPrefixOf s then true
  else
    match s with
    | [] => false
    | _ :: t => containsStr t sub

/-- strings.Count(s, sep) for a one-rune separator sep. -/
def countChar (s : List Char) (c : Char) : Nat := s.count c

/-- The number of bytes in the UTF-8 encoding of a rune; Go's len(string(r)). -/
def utf8Len (c : Char) : Nat :=
  if c.toNat < 0x80 then 1
  else if c.toNat < 0x800 then 2
  else if c.toNat < 0x10000 then 3
  else 4

/-- Go's len(s): the byte length of a string. -/
def byteLen (s : List Char) : Nat := (s.map utf8Len).sum

/-- strings.Replace(s, old, new, -1) where old is a single rune. -/
def replaceChar (s : List Char) (old : Char) (new : List Char) : List Char :=
  (s.map (fun c => if c = old then new else [c])).flatten

namespace V1
/-
  Transcription of the first-generation highlighting file (src/unnamed/part_000):
  the five lexical transition predicates and the two state-update loops of its
  WriteLines.
-/

/-- SingleLineComment (part_000 lines 16-18): the trimmed line is a single line
comment (starts with the language marker, or is a one-line block comment),
provided we are not inside a multi-line comment or string. -/
def SingleLineComment (trimmedLine marker : List Char)
    (inMultiLineComment inMultiLineString : Bool) : Bool :=
  (!inMultiLineComment && !inMultiLineString) &&
    (hasPrefixStr trimmedLine marker ||
      (hasPrefixStr trimmedLine (strL "/*") && hasSuffixStr trimmedLine (strL "*/")))

/-- MultiLineCommentStart (part_000 lines 21-23). -/
def MultiLineCommentStart (trimmedLine : List Char)
    (inMultiLineComment inMultiLineString inSingleLineComment : Bool) : Bool :=
  (!inMultiLineComment && !inMultiLineString && !inSingleLineComment) &&
    containsStr trimmedLine (strL "/*")

/-- MultiLineCommentStop (part_000 lines 26-28). -/
def MultiLineCommentStop (trimmedLine : List Char)
    (inMultiLineComment inMultiLineString inSingleLineComment : Bool) : Bool :=
  (inMultiLineComment && !inMultiLineString && !inSingleLineComment) &&
    containsStr trimmedLine (strL "*/")

/-- MultiLineStringStart (part_000 lines 31-33): odd number of backticks flips
the multi-line-string state on, outside comments and strings. -/
def MultiLineStringStart (trimmedLine : List Char)
    (inMultiLineComment inMultiLineString inSingleLineComment : Bool) : Bool :=
  (!inMultiLineComment && !inMultiLineString && !inSingleLineComment) &&
    (countChar trimmedLine backtickChar % 2 != 0)

/-- MultiLineStringStop (part_000 lines 36-38): odd number of backticks flips
the multi-line-string state off, when inside a string. -/
def MultiLineStringStop (trimmedLine : List Char)
    (inMultiLineComment inMultiLineString inSingleLineComment : Bool) : Bool :=
  (!inMultiLineComment && inMultiLineString && !inSingleLineComment) &&
    (countChar trimmedLine backtickChar % 2 != 0)

/-- The two cross-line lexical flags threaded by WriteLines (part_000). -/
structure MLState where
  inMultiLineComment : Bool
  inMultiLineString : Bool
  deriving DecidableEq

/-- The blank lexical state entering line 0. -/
def blankState : MLState := ⟨false, false⟩

/-- One iteration of the replay loop of WriteLines (part_000 lines 78-94):
trim the line, then apply the first matching transition. -/
def replayStep (marker : List Char) (s : MLState) (lineText : List Char) : MLState :=
  let trimmedLine := trimSpaceStr lineText
  if SingleLineComment trimmedLine marker s.inMultiLineComment s.inMultiLineString then s
  else if MultiLineCommentStart trimmedLine s.inMultiLineComment s.inMultiLineString false then
    { s with inMultiLineComment := true }
  else if MultiLineCommentStop trimmedLine s.inMultiLineComment s.inMultiLineString false then
    { s with inMultiLineComment := false }
  else if MultiLineStringStart trimmedLine s.inMultiLineComment s.inMultiLineString false then
    { s with inMultiLineString := true }
  else if MultiLineStringStop trimmedLine s.inMultiLineComment s.inMultiLineString false then
    { s with inMultiLineString := false }
  else s

/-- Replaying the state machine over a document from the blank state. -/
def replay (marker : List Char) (doc : List (List Char)) : MLState :=
  doc.foldl (replayStep marker) blankState

/-- Per-line lexical outcome of the drawing loop of WriteLines (part_000). -/
structure LineLexResult where
  inMultiLineComment : Bool
  inMultiLineString : Bool
  inSingleLineComment : Bool
  newlyStartedMultiLineString : Bool
  deriving DecidableEq

/-- The lexical-state update of the drawing loop of WriteLines
(part_000 lines 136-156): classify the line as a single-line comment, update
the multi-line-comment flag, then (checking stop before start) update the
multi-line-string flag, recording whether the string was newly started. -/
def processLine (marker : List Char) (s : MLState) (lineText : List Char) : LineLexResult :=
  let trimmedLine := trimSpaceStr lineText
  let inSLC := SingleLineComment trimmedLine marker s.inMultiLineComment s.inMultiLineString
  let mlc :=
    if MultiLineCommentStart trimmedLine s.inMultiLineComment s.inMultiLineString inSLC then
      true
    else if MultiLineCommentStop trimmedLine s.inMultiLineComment s.inMultiLineString inSLC then
      false
    else s.inMultiLineComment
  if MultiLineStringStop trimmedLine mlc s.inMultiLineString inSLC then
    ⟨mlc, false, inSLC, false⟩
  else if MultiLineStringStart trimmedLine mlc s.inMultiLineString inSLC then
    ⟨mlc, true, inSLC, true⟩
  else
    ⟨mlc, s.inMultiLineString, inSLC, false⟩

end V1

namespace Ed
/-
  Transcription of the document / coordinate model of src/v2/editor.go and
  src/v2/position.go.
-/

/-- Position (src/v2/position.go): cursor and scroll state. -/
structure Position where
  sx : Int
  sy : Int
  offsetX : Int
  offsetY : Int
  scrollSpeed : Int
  savedX : Int
  deriving DecidableEq

/-- The fields of Editor (src/v2/editor.go) that the document and coordinate
operations read: the sparse line map (modelled as key/value pairs with the
keys of the Go map unique), the cursor position, and the tab width. -/
structure Editor where
  lines : List (Int × List Char)
  pos : Position
  indentationPerTab : Int
  deriving DecidableEq

/-- Go map indexing lines[n] with its ok flag: the first binding for the key. -/
def lookupLine (lines : List (Int × List Char)) (n : Int) : Option (List Char) :=
  (lines.find? (fun p => p.1 = n)).map Prod.snd

/-- Line (editor.go lines 178-188): the contents of line n, or "" if absent. -/
def Editor.Line (e : Editor) (n : Int) : List Char :=
  match lookupLine e.lines n with
  | some line => line
  | none => []

/-- The counting loop of CountRune, with a Go int counter. -/
def countLoop (r : Char) (line : List Char) : Int :=
  line.foldl (fun counter l => if l = r then counter + 1 else counter) 0

/-- CountRune (editor.go lines 261-272): occurrences of rune r in line n. -/
def Editor.CountRune (e : Editor) (r : Char) (n : Int) : Int :=
  match lookupLine e.lines n with
  | some line => countLoop r line
  | none => 0

/-- LastDataPosition (editor.go lines 210-214): rune count minus one. -/
def Editor.LastDataPosition (e : Editor) (n : Int) : Int :=
  ((e.Line n).length : Int) - 1

/-- LastScreenPosition (editor.go lines 216-221): last data position plus the
extra space taken by tabs. -/
def Editor.LastScreenPosition (e : Editor) (n : Int) : Int :=
  let extraSpaceBecauseOfTabs := e.CountRune '\t' n * (e.indentationPerTab - 1)
  e.LastDataPosition n + extraSpaceBecauseOfTabs

/-- Len (editor.go lines 275-284): one plus the running maximum (seeded with 0)
of the keys of the line map. -/
def Editor.Len (e : Editor) : Int :=
  ((e.lines.map Prod.fst).foldl (fun maxy y => if y > maxy then y else maxy) 0) + 1

/-- The scanning loop of DataX (editor.go lines 1158-1177): walk the runes,
expanding tabs, until the accumulated screen column equals the target; on
success the rune index is returned, otherwise the rune count together with the
"position is after data" error. -/
def dataXLoop (perTab target : Int) :
    List Char → Int → Int → Int × Option (List Char)
  | [], _, runeCounter => (runeCounter, some (strL "position is after data"))
  | r :: rest, screenCounter, runeCounter =>
    if screenCounter = target then (runeCounter, none)
    else
      dataXLoop perTab target rest
        (screenCounter + (if r = '\t' then perTab else 1)) (runeCounter + 1)

/-- DataX (editor.go lines 1151-1182): the data X position for the current
screen column, or the rune count and an error when the column is after the
line's data. -/
def Editor.DataX (e : Editor) : Int × Option (List Char) :=
  let dataY := e.pos.offsetY + e.pos.sy
  dataXLoop e.indentationPerTab (e.pos.sx + e.pos.offsetX)
    ((lookupLine e.lines dataY).getD []) 0 0

/-- The expanded screen width of a line, following the words of the spec:
walk the code points, a tab counts as the configured tab width, every other
code point as one column. -/
def specScreenWidth (t : Int) (line : List Char) : Int :=
  line.foldl (fun acc r => acc + (if r = '\t' then t else 1)) 0

end Ed

/-- The tab-width fold evaluates to length plus tab count times (t - 1). -/
theorem width_fold_eq (t : Int) (l : List Char) : ∀ a : Int,
    l.foldl (fun acc r => acc + (if r = '\t' then t else 1)) a =
      a + l.length + (l.count '\t' : Int) * (t - 1) := by
  induction l with
  | nil => intro a; simp
  | cons x xs ih =>
    intro a
    rw [List.foldl_cons, ih, List.count_cons, List.length_cons]
    rcases eq_or_ne x '\t' with hx | hx
    · subst hx
      simp only [if_pos rfl, beq_self_eq_true, if_true]
      push_cast
      ring
    · rw [if_neg hx, if_neg (by simpa using hx)]
      push_cast
      ring

/-- The Go counting loop equals list count. -/
theorem countLoop_eq (r : Char) (l : List Char) :
    Ed.countLoop r l = (l.count r : Int) := by
  suffices h : ∀ a : Int, l.foldl (fun counter x => if x = r then counter + 1 else counter) a =
      a + (l.count r : Int) by
    simpa [Ed.countLoop] using h 0
  induction l with
  | nil => intro a; simp
  | cons x xs ih =>
    intro a
    rw [List.foldl_cons, ih, List.count_cons]
    rcases eq_or_ne x r with hx | hx
    · subst hx
      simp only [if_pos rfl, beq_self_eq_true, if_true]
      push_cast
      ring
    · rw [if_neg hx, if_neg (by simpa using hx)]
      push_cast
      ring

/-- C2: replaying the lexical state machine over the trimmed lines 0..k from the
blank initial state yields the same final state as replaying lines 0..j and then
resuming from that intermediate state over lines j..k, for any 0 ≤ j ≤ k. -/
theorem lexical_replay_checkpoint (marker : List Char) (doc : List (List Char))
    (j k : Nat) (h : j ≤ k) :
    (doc.take k).foldl (V1.replayStep marker) V1.blankState =
      ((doc.take k).drop j).foldl (V1.replayStep marker)
        ((doc.take j).foldl (V1.replayStep marker) V1.blankState) := by
  conv_lhs => rw [← List.take_append_drop j (doc.take k)]
  rw [List.foldl_append, List.take_take, Nat.min_eq_left h]

/-- Witness for C2: checkpoint resumability at j = 1, k = 2 on a concrete
three-line document. -/
theorem lexical_replay_checkpoint_witness :
    (1 ≤ 2) ∧
      (([strL "/*", strL "*/", strL "x"].take 2).foldl (V1.replayStep (strL "//")) V1.blankState =
        (([strL "/*", strL "*/", strL "x"].take 2).drop 1).foldl (V1.replayStep (strL "//"))
          (([strL "/*", strL "*/", strL "x"].take 1).foldl (V1.replayStep (strL "//")) V1.blankState)) :=
  ⟨by decide, lexical_replay_checkpoint (strL "//") [strL "/*", strL "*/", strL "x"] 1 2 (by decide)⟩

/-- C5: outside comments, strings and single-line comments, an odd backtick
count starts a multi-line string, and inside such a string an odd backtick
count stops it; on the two-line input "`abc" / "def`" the first line leaves the
string open with newlyStartedMultiLineString set, and the second closes it with
newlyStartedMultiLineString cleared. -/
theorem multiline_string_parity :
    (∀ trimmedLine : List Char,
      V1.MultiLineStringStart trimmedLine false false false =
        (countChar trimmedLine backtickChar % 2 != 0)) ∧
    (∀ trimmedLine : List Char,
      V1.MultiLineStringStop trimmedLine false true false =
        (countChar trimmedLine backtickChar % 2 != 0)) ∧
    ((V1.processLine (strL "//") V1.blankState (strL "`abc")).inMultiLineString = true ∧
      (V1.processLine (strL "//") V1.blankState (strL "`abc")).newlyStartedMultiLineString = true) ∧
    ((V1.processLine (strL "//") ⟨false, true⟩ (strL "def`")).inMultiLineString = false ∧
      (V1.processLine (strL "//") ⟨false, true⟩ (strL "def`")).newlyStartedMultiLineString = false) := by
  refine ⟨fun t => by simp [V1.MultiLineStringStart], fun t => by simp [V1.MultiLineStringStop], ?_, ?_⟩
  · exact ⟨by decide, by decide⟩
  · exact ⟨by decide, by decide⟩

/-- CountRune agrees with the rune count of the line contents. -/
theorem countRune_eq_line_count (e : Ed.Editor) (r : Char) (n : Int) :
    e.CountRune r n = (((e.Line n).count r : Nat) : Int) := by
  unfold Ed.Editor.CountRune Ed.Editor.Line
  cases Ed.lookupLine e.lines n with
  | none => simp
  | some line => simp [countLoop_eq]

/-- C3: the expanded screen width of a line equals its code-point count plus
its tab count times (tab width - 1); equivalently, LastScreenPosition (the last
expanded column index) plus one is exactly that width. -/
theorem screen_width_tab_expansion (e : Ed.Editor) (n : Int) :
    Ed.specScreenWidth e.indentationPerTab (e.Line n) =
      ((e.Line n).length : Int) + e.CountRune '\t' n * (e.indentationPerTab - 1) ∧
    e.LastScreenPosition n + 1 = Ed.specScreenWidth e.indentationPerTab (e.Line n) := by
  have hc := countRune_eq_line_count e '\t' n
  constructor
  · rw [Ed.specScreenWidth, width_fold_eq e.indentationPerTab (e.Line n) 0, hc]
    ring
  · rw [Ed.Editor.LastScreenPosition, Ed.Editor.LastDataPosition,
      Ed.specScreenWidth, width_fold_eq e.indentationPerTab (e.Line n) 0, hc]
    ring

/-- Tab-free two-rune test line "ab" with the cursor at screen column 2
(exactly the rune count of the line). -/
def eAfterData : Ed.Editor := ⟨[(0, strL "ab")], ⟨2, 0, 0, 0, 0, 0⟩, 4⟩

/-- The same editor with the cursor at screen column 1, inside the line. -/
def eInsideData : Ed.Editor := ⟨[(0, strL "ab")], ⟨1, 0, 0, 0, 0, 0⟩, 4⟩

/-- C4: on the tab-free line "ab", DataX at screen column 1 (< len) succeeds
and returns 1, but at screen column 2 (= len) it returns the "position is
after data" error instead of succeeding with 2: the code rejects the column
equal to the line length, although its own comment says the position just
after the line should be a valid data position. -/
theorem dataX_boundary_eval :
    eInsideData.DataX = (1, none) ∧
    eAfterData.DataX = (2, some (strL "position is after data")) := by
  constructor
  · rfl
  · rfl

/-- The key-maximum fold of Len never goes below its seed. -/
theorem maxFold_ge (l : List Int) :
    ∀ a : Int, a ≤ l.foldl (fun maxy y => if y > maxy then y else maxy) a := by
  induction l with
  | nil => intro a; exact le_refl a
  | cons x t ih =>
    intro a
    rw [List.foldl_cons]
    have h1 : a ≤ (if x > a then x else a) := by split <;> omega
    exact le_trans h1 (ih _)

/-- The key-maximum fold of Len is an upper bound for the list elements. -/
theorem maxFold_ub (l : List Int) :
    ∀ a : Int, ∀ k ∈ l, k ≤ l.foldl (fun maxy y => if y > maxy then y else maxy) a := by
  induction l with
  | nil => intro a k hk; cases hk
  | cons x t ih =>
    intro a k hk
    rw [List.foldl_cons]
    rcases List.mem_cons.mp hk with rfl | hk2
    · have h1 : k ≤ (if k > a then k else a) := by split <;> omega
      exact le_trans h1 (maxFold_ge t _)
    · exact ih _ k hk2

/-- The key-maximum fold of Len either hits a list element or returns its seed
with every element at most the seed. -/
theorem maxFold_mem_or (l : List Int) :
    ∀ a : Int, l.foldl (fun maxy y => if y > maxy then y else maxy) a ∈ l ∨
      (l.foldl (fun maxy y => if y > maxy then y else maxy) a = a ∧ ∀ k ∈ l, k ≤ a) := by
  induction l with
  | nil =>
    intro a
    right
    exact ⟨rfl, by intro k hk; cases hk⟩
  | cons x t ih =>
    intro a
    rw [List.foldl_cons]
    rcases ih (if x > a then x else a) with h | ⟨heq, hb⟩
    · exact Or.inl (List.mem_cons_of_mem _ h)
    · by_cases hx : x > a
      · left
        rw [heq, if_pos hx]
        exact List.mem_cons_self _ _
      · right
        rw [heq, if_neg hx]
        refine ⟨rfl, ?_⟩
        intro k hk
        rcases List.mem_cons.mp hk with rfl | hk2
        · omega
        · have h2 := hb k hk2
          rw [if_neg hx] at h2
          exact h2

/-- C10: when all stored line indices are non-negative, Len is one more than
the largest stored index (1 for an empty map), and is never zero. -/
theorem len_max_plus_one (e : Ed.Editor)
    (hpos : ∀ k ∈ e.lines.map Prod.fst, 0 ≤ k) :
    1 ≤ e.Len ∧
    (e.lines = [] → e.Len = 1) ∧
    (∀ k ∈ e.lines.map Prod.fst, k < e.Len) ∧
    (e.lines ≠ [] → ∃ k ∈ e.lines.map Prod.fst, e.Len = k + 1) := by
  have hge := maxFold_ge (e.lines.map Prod.fst) 0
  have hub := maxFold_ub (e.lines.map Prod.fst) 0
  have hmem := maxFold_mem_or (e.lines.map Prod.fst) 0
  refine ⟨?_, ?_, ?_, ?_⟩
  · simp only [Ed.Editor.Len]
    omega
  · intro h
    simp [Ed.Editor.Len, h]
  · intro k hk
    have h2 := hub k hk
    simp only [Ed.Editor.Len]
    omega
  · intro hne
    rcases hmem with h | ⟨h0, hb⟩
    · exact ⟨_, h, by simp only [Ed.Editor.Len]⟩
    · have hkne : e.lines.map Prod.fst ≠ [] := by simpa using hne
      rcases List.exists_mem_of_ne_nil _ hkne with ⟨k0, hk0⟩
      have h1 := hpos k0 hk0
      have h2 := hb k0 hk0
      refine ⟨k0, hk0, ?_⟩
      simp only [Ed.Editor.Len]
      omega

/-- Concrete editor with a gap: lines stored only at indices 0 and 5. -/
def eLenW : Ed.Editor := ⟨[(0, strL "x"), (5, strL "y")], ⟨0, 0, 0, 0, 0, 0⟩, 4⟩

/-- Witness for C10 on a gapped map holding indices 0 and 5. -/
theorem len_max_plus_one_witness :
    (∀ k ∈ eLenW.lines.map Prod.fst, 0 ≤ k) ∧
    (1 ≤ eLenW.Len ∧
      (eLenW.lines = [] → eLenW.Len = 1) ∧
      (∀ k ∈ eLenW.lines.map Prod.fst, k < eLenW.Len) ∧
      (eLenW.lines ≠ [] → ∃ k ∈ eLenW.lines.map Prod.fst, eLenW.Len = k + 1)) :=
  ⟨by decide, len_max_plus_one eLenW (by decide)⟩

/-- A colorized cell: one code point with a foreground and a background
attribute (attribute values are opaque; the background is supplied by the
editor per write and passed through unchanged by search highlighting). -/
structure SCell where
  r : Char
  fg : Nat
  bg : Nat
  deriving DecidableEq

/-- The inner match loop of the search-term highlighting (highlight.go lines
404-419): the upcoming cells carry exactly the runes of the term; false when
the cells run out or a rune differs. -/
def runesMatch : List Char → List SCell → Bool
  | [], _ => true
  | _ :: _, [] => false
  | t :: ts, c :: cs => (t = c.r) && runesMatch ts cs

/-- The search-term highlighting of WriteLines (highlight.go lines 382-425 and
part_000 lines 179-214), factored as a pure transformation of the cell
sequence: a cell inside an already-found match (the matchForAnotherN
countdown) is recolored with the highlight color sh; a cell whose rune equals
the first rune of the non-empty term and which starts a full match is
recolored and opens a countdown of the term length minus one; every other
cell passes through unchanged. -/
def shScan (term : List Char) (sh : Nat) : Nat → List SCell → List SCell
  | _, [] => []
  | Nat.succ m, c :: rest => { c with fg := sh } :: shScan term sh m rest
  | 0, c :: rest =>
    match term with
    | [] => c :: shScan term sh 0 rest
    | t0 :: _ =>
      if (c.r = t0) && runesMatch term (c :: rest) then
        { c with fg := sh } :: shScan term sh (term.length - 1) rest
      else
        c :: shScan term sh 0 rest

/-- Search-term highlighting of a whole cell line, from a clean state. -/
def searchHighlight (term : List Char) (sh : Nat) (cells : List SCell) : List SCell :=
  shScan term sh 0 cells

/-- Search highlighting never changes the runes of the cells. -/
theorem shScan_runes (term : List Char) (sh : Nat) :
    ∀ (cells : List SCell) (n : Nat),
      (shScan term sh n cells).map SCell.r = cells.map SCell.r := by
  intro cells
  induction cells with
  | nil => intro n; cases n <;> rfl
  | cons c rest ih =>
    intro n
    cases n with
    | succ m => simp [shScan, ih]
    | zero =>
      cases term with
      | nil => simp [shScan, ih]
      | cons t0 ts =>
        by_cases h : ((c.r = t0) && runesMatch (t0 :: ts) (c :: rest)) = true
        · simp [shScan, h, ih]
        · simp only [shScan, h]
          simp [ih]

/-- The match test depends only on the runes of the cells. -/
theorem runesMatch_congr (ts : List Char) :
    ∀ (cs cs' : List SCell), cs.map SCell.r = cs'.map SCell.r →
      runesMatch ts cs = runesMatch ts cs' := by
  induction ts with
  | nil => intro cs cs' _; rfl
  | cons t tr ih =>
    intro cs cs' h
    cases cs with
    | nil =>
      cases cs' with
      | nil => rfl
      | cons d ds => simp at h
    | cons c cr =>
      cases cs' with
      | nil => simp at h
      | cons d ds =>
        simp only [List.map_cons, List.cons.injEq] at h
        obtain ⟨h1, h2⟩ := h
        simp [runesMatch, h1, ih cr ds h2]

/-- Search highlighting from any countdown changes at most foregrounds:
each output cell keeps its rune and background, and its foreground is either
the original one or the highlight color. -/
theorem shScan_forall2 (term : List Char) (sh : Nat) :
    ∀ (cells : List SCell) (n : Nat),
      List.Forall₂ (fun a b => b.r = a.r ∧ b.bg = a.bg ∧ (b.fg = a.fg ∨ b.fg = sh))
        cells (shScan term sh n cells) := by
  intro cells
  induction cells with
  | nil => intro n; cases n <;> exact List.Forall₂.nil
  | cons c rest ih =>
    intro n
    cases n with
    | succ m =>
      exact List.Forall₂.cons ⟨rfl, rfl, Or.inr rfl⟩ (ih m)
    | zero =>
      cases term with
      | nil => exact List.Forall₂.cons ⟨rfl, rfl, Or.inl rfl⟩ (ih 0)
      | cons t0 ts =>
        by_cases h : ((c.r = t0) && runesMatch (t0 :: ts) (c :: rest)) = true
        · simp only [shScan, h, if_true]
          exact List.Forall₂.cons ⟨rfl, rfl, Or.inr rfl⟩ (ih _)
        · simp only [shScan, h, if_false, Bool.false_eq_true]
          exact List.Forall₂.cons ⟨rfl, rfl, Or.inl rfl⟩ (ih 0)

/-- Search highlighting is idempotent from any countdown state. -/
theorem shScan_idem (term : List Char) (sh : Nat) :
    ∀ (cells : List SCell) (n : Nat),
      shScan term sh n (shScan term sh n cells) = shScan term sh n cells := by
  intro cells
  induction cells with
  | nil => intro n; cases n <;> rfl
  | cons c rest ih =>
    intro n
    cases n with
    | succ m => simp [shScan, ih]
    | zero =>
      cases term with
      | nil => simp [shScan, ih]
      | cons t0 ts =>
        by_cases h : ((c.r = t0) && runesMatch (t0 :: ts) (c :: rest)) = true
        · have hr : ({ c with fg := sh } :: shScan (t0 :: ts) sh ((t0 :: ts).length - 1) rest).map SCell.r =
              (c :: rest).map SCell.r := by
            simp [shScan_runes]
          have h2 : ((({ c with fg := sh } : SCell).r = t0) &&
              runesMatch (t0 :: ts)
                ({ c with fg := sh } :: shScan (t0 :: ts) sh ((t0 :: ts).length - 1) rest)) = true := by
            rw [runesMatch_congr (t0 :: ts) _ _ hr]
            simpa using h
          simp only [shScan, h, if_true]
          simp only [shScan, h2, if_true]
          simp [ih]
        · have hr : (c :: shScan (t0 :: ts) sh 0 rest).map SCell.r = (c :: rest).map SCell.r := by
            simp [shScan_runes]
          have h2 : (((c : SCell).r = t0) &&
              runesMatch (t0 :: ts) (c :: shScan (t0 :: ts) sh 0 rest)) = false := by
            rw [runesMatch_congr (t0 :: ts) _ _ hr]
            simpa using h
          simp only [shScan, h, if_false, Bool.false_eq_true]
          simp only [shScan, h2, if_false, Bool.false_eq_true]
          simp [ih]

/-- C8: search-term highlighting changes only cell foregrounds (every output
cell keeps its rune and background, and its foreground is the original one or
the search-highlight color), and applying it twice with the same term gives
the same output as applying it once. -/
theorem search_highlight_fg_only_and_idem (term : List Char) (sh : Nat) (cells : List SCell) :
    List.Forall₂ (fun a b => b.r = a.r ∧ b.bg = a.bg ∧ (b.fg = a.fg ∨ b.fg = sh))
      cells (searchHighlight term sh cells) ∧
    searchHighlight term sh (searchHighlight term sh cells) = searchHighlight term sh cells :=
  ⟨shScan_forall2 term sh cells 0, shScan_idem term sh cells 0⟩

namespace HL
/-
  Transcription of WriteLines (src/highlight.go lines 23-486), the render
  pipeline of the current editor version.  Collaborators whose source is not
  part of this repository snapshot (the syntax, textoutput and vt100
  packages, quotestate.go, rainbow.go, the per-language colorers) enter as
  fields of `Ext`.
-/

/-- The file modes WriteLines inspects outside the per-language dispatch. -/
inductive Mode where
  | markdown
  | python
  | vim
  | manPage
  | lisp
  | clojure
  | other
  deriving DecidableEq

/-- The error values of the render path: range is
"fromline >= toline in WriteLines", unicode is "unsupported unicode text",
and unmatchedParenthesis is rainbow.go's errUnmatchedParenthesis, which
WriteLines compares against but never returns. -/
inductive GoError where
  | range
  | unicode
  | unmatchedParenthesis
  deriving DecidableEq

/-- One rune with its color attribute, as produced by textoutput.Extract. -/
structure RA where
  r : Char
  a : Nat
  deriving DecidableEq

/-- A canvas write: vt100 Canvas.Write of a string or WriteRuneB of a rune. -/
inductive CEvent where
  | writeStr (x y : Nat) (fg bg : Nat) (s : List Char)
  | writeRuneB (x y : Nat) (fg bg : Nat) (r : Char)
  deriving DecidableEq

/-- The canvas: a fixed width and the list of writes performed so far. -/
structure Canvas where
  width : Nat
  events : List CEvent
  deriving DecidableEq

/-- Canvas.Write. -/
def Canvas.write (c : Canvas) (x y fg bg : Nat) (s : List Char) : Canvas :=
  { c with events := c.events ++ [CEvent.writeStr x y fg bg s] }

/-- Canvas.WriteRuneB. -/
def Canvas.writeRuneB (c : Canvas) (x y fg bg : Nat) (r : Char) : Canvas :=
  { c with events := c.events ++ [CEvent.writeRuneB x y fg bg r] }

/-- The fields of QuoteState (quotestate.go, not in this snapshot) that
WriteLines reads or writes directly; the field list is taken from the uses in
highlight.go and the spec's LexicalState description. -/
structure QState where
  singleLineComment : Bool
  startedMultiLineString : Bool
  stoppedMultiLineComment : Bool
  multiLineComment : Bool
  containsMultiLineComments : Bool
  backtick : Int
  doubleQuote : Int
  singleQuote : Int
  parCount : Int
  braCount : Int
  deriving DecidableEq

/-- The fields of the current Editor that WriteLines reads.
highlightEnabled is the source's syntaxHighlight flag; singleLineCommentMarker
is the value of e.SingleLineCommentMarker() for the current mode. -/
structure Editor where
  lines : List (Int × List Char)
  mode : Mode
  highlightEnabled : Bool
  rainbowParenthesis : Bool
  searchTerm : List Char
  Background : Nat
  Foreground : Nat
  SearchHighlight : Nat
  tabsSpacesPerTab : Nat
  posOffsetX : Int
  singleLineCommentMarker : List Char
  deriving DecidableEq

/-- The cross-line state threaded through the per-language dispatch
(highlight.go lines 112-122 and 149-365). -/
structure DispState where
  inCodeBlock : Bool
  prevLineIsListItem : Bool
  prevPrevLineIsListItem : Bool
  inListItem : Bool
  programName : List Char
  deriving DecidableEq

/-- External collaborators of WriteLines, as opaque functions.
dispatch stands for the per-language switch (highlight.go lines 149-365): it
receives the editor, the row index, the number of rows, the display line, the
trimmed line and the tag-highlighted text, and returns the colored string,
the (possibly re-trimmed) trimmed line and the updated quote/dispatch state.
rainbowParen (rainbow.go) returns its two counters, the recolored cells and
an error value compared against errUnmatchedParenthesis. -/
structure Ext where
  envNoColor : Bool
  backgroundAttr : Nat → Nat
  escapeFn : List Char → List Char
  asText : List Char → Mode → Option (List Char)
  /-- Modelled from the spec: NewQuoteState (quotestate.go is not in this
  snapshot) is total here, per the spec's propagation policy that the range
  error is the only hard failure surfaced to the caller before drawing. -/
  newQuoteState : List Char → Mode → Bool → QState
  qProcess : QState → List Char → QState
  qNone : QState → Bool
  qParBraCount : QState → List Char → Int × Int
  dispatch : Editor → Nat → Nat → List Char → List Char → List Char → QState → DispState →
    (List Char × List Char × QState × DispState)
  extract : List Char → List RA
  rainbowParen : Int → Int → List RA → List Char → Bool → (Int × Int × List RA × Option GoError)
  chopLine : Editor → List Char → Nat → List Char
  handleManPageEscape : List Char → List Char

/-- Line lookup of the current editor: map contents or "" (editor.go Line). -/
def lineOf (e : Editor) (n : Int) : List Char :=
  match Ed.lookupLine e.lines n with
  | some l => l
  | none => []

/-- The markdown pre-scan of WriteLines (highlight.go lines 47-58): toggle the
code-block flag for every line before fromline starting with a fence. -/
def markdownPre (e : Editor) (fromline : Int) : Bool :=
  (List.range fromline.toNat).foldl
    (fun inCodeBlock i =>
      let line := lineOf e (Int.ofNat i)
      if hasPrefixStr line (strL "~~~") || hasPrefixStr line (strL "```") then
        !inCodeBlock
      else inCodeBlock)
    false

/-- A triple-double-quote and a triple-single-quote, by code point. -/
def tripleQuoteD : List Char := List.replicate 3 (Char.ofNat 34)

/-- Three single-quote characters. -/
def tripleQuoteS : List Char := List.replicate 3 (Char.ofNat 39)

/-- The python pre-scan of WriteLines (highlight.go lines 59-78): docstring
delimiters flip or clear the code-block flag for every line before fromline. -/
def pythonPre (e : Editor) (fromline : Int) : Bool :=
  (List.range fromline.toNat).foldl
    (fun inCodeBlock i =>
      let trimmedLine := trimSpaceStr (lineOf e (Int.ofNat i))
      if hasPrefixStr trimmedLine tripleQuoteD && hasSuffixStr trimmedLine tripleQuoteD then
        false
      else if hasPrefixStr trimmedLine tripleQuoteS && hasSuffixStr trimmedLine tripleQuoteS then
        false
      else if hasPrefixStr trimmedLine tripleQuoteD || hasPrefixStr trimmedLine tripleQuoteS then
        !inCodeBlock
      else if hasSuffixStr trimmedLine tripleQuoteD || hasSuffixStr trimmedLine tripleQuoteS then
        false
      else inCodeBlock)
    false

/-- The quote-state pre-scan of WriteLines (highlight.go lines 92-110):
process every trimmed line before the first visible one, with the special
ViM case resetting the state on comment lines. -/
def replayQuoteState (ext : Ext) (e : Editor) (offsetY : Int) (q0 : QState) : QState :=
  (List.range offsetY.toNat).foldl
    (fun q i =>
      let trimmedLine := trimSpaceStr (lineOf e (Int.ofNat i))
      if e.mode = Mode.vim && hasPrefixStr trimmedLine [Char.ofNat 34] then
        { q with singleLineComment := true, startedMultiLineString := false,
                 stoppedMultiLineComment := false, backtick := 0,
                 doubleQuote := 0, singleQuote := 0 }
      else ext.qProcess q trimmedLine)
    q0

/-- The rainbow guard of WriteLines (highlight.go line 371): the overlay runs
only when rainbow parenthesis is enabled, the quote state reports nothing
open, and the line is not a single-line comment. -/
def rainbowGuard (ext : Ext) (e : Editor) (q : QState) : Bool :=
  e.rainbowParenthesis && ext.qNone q && !q.singleLineComment

/-- The rainbow overlay of WriteLines (highlight.go lines 370-380): under the
guard, compute the counters entering this line, run the matcher, and if it
reports errUnmatchedParenthesis reset both running counters to zero; the
error value itself goes no further. -/
def rainbowOverlay (ext : Ext) (e : Editor) (marker : List Char)
    (ignoreSingleQuotes : Bool) (q : QState) (trimmedLine : List Char)
    (raa : List RA) : List RA × QState :=
  if rainbowGuard ext e q then
    let pb := ext.qParBraCount q trimmedLine
    let parCountBeforeThisLine := q.parCount - pb.1
    let braCountBeforeThisLine := q.braCount - pb.2
    let res := ext.rainbowParen parCountBeforeThisLine braCountBeforeThisLine raa
      marker ignoreSingleQuotes
    if res.2.2.2 = some GoError.unmatchedParenthesis then
      (res.2.2.1, { q with parCount := 0, braCount := 0 })
    else
      (res.2.2.1, q)
  else (raa, q)

/-- Go's unicode.IsControl for the runes relevant here: C0 controls, DEL and
the C1 range. -/
def isControlGo (c : Char) : Bool :=
  c.toNat < 0x20 || (0x7f ≤ c.toNat && c.toNat ≤ 0x9f)

/-- The placeholder glyph for control runes (highlight.go line 16). -/
def controlRuneReplacement : Char := Char.ofNat 0xbf

/-- The state of the cell-writing loop of WriteLines. -/
structure RunePrintState where
  skipX : Int
  matchForAnotherN : Int
  lineRuneCount : Nat
  lineStringCount : Nat
  canvas : Canvas
  deriving DecidableEq

/-- The search-match test of the cell loop (highlight.go lines 404-419) on
rune/attribute cells. -/
def runesMatchRA : List Char → List RA → Bool
  | [], _ => true
  | _ :: _, [] => false
  | t :: ts, c :: cs => (t = c.r) && runesMatchRA ts cs

/-- The cell-writing loop of WriteLines (highlight.go lines 386-442): skip
offsetX leading cells; give spaces the default foreground; apply search-term
highlighting; then write the cell -- a tab as the expanded tab string without
a width check, any other rune through the control-rune replacement and only
when inside the canvas width -- while counting written runes and bytes. -/
def printRunes (ext : Ext) (e : Editor) (bg : Nat) (tabString : List Char)
    (cw : Nat) (cx : Nat) (ty : Nat) :
    List RA → RunePrintState → RunePrintState
  | [], st => st
  | ra :: rest, st =>
    if st.skipX > 0 then
      printRunes ext e bg tabString cw cx ty rest { st with skipX := st.skipX - 1 }
    else
      let letter := ra.r
      let fg1 := if letter = ' ' then e.Foreground else ra.a
      let fgN : Nat × Int :=
        if st.matchForAnotherN > 0 then
          (e.SearchHighlight, st.matchForAnotherN - 1)
        else
          match e.searchTerm with
          | [] => (fg1, st.matchForAnotherN)
          | t0 :: _ =>
            if letter = t0 && runesMatchRA e.searchTerm (ra :: rest) then
              (e.SearchHighlight, (e.searchTerm.length : Int) - 1)
            else (fg1, st.matchForAnotherN)
      let fg := fgN.1
      let st2 := { st with matchForAnotherN := fgN.2 }
      if letter = '\t' then
        let c2 := st2.canvas.write (cx + st2.lineRuneCount) ty fg e.Background tabString
        printRunes ext e bg tabString cw cx ty rest
          { st2 with canvas := c2,
                     lineRuneCount := st2.lineRuneCount + e.tabsSpacesPerTab,
                     lineStringCount := st2.lineStringCount + e.tabsSpacesPerTab }
      else
        let letter2 := if isControlGo letter then controlRuneReplacement else letter
        let tx := cx + st2.lineRuneCount
        if tx < cw then
          let c2 := st2.canvas.writeRuneB tx ty fg bg letter2
          printRunes ext e bg tabString cw cx ty rest
            { st2 with canvas := c2,
                       lineRuneCount := st2.lineRuneCount + 1,
                       lineStringCount := st2.lineStringCount + utf8Len letter2 }
        else
          printRunes ext e bg tabString cw cx ty rest st2

/-- The state threaded across rows by the drawing loop of WriteLines.  The
ghost field diffs records each row's runeLengthDiff (the value the source
compares against the slack of 2, highlight.go line 466); it is written
alongside the expandedRunes flag and never read back by the computation. -/
structure LoopState where
  canvas : Canvas
  q : QState
  disp : DispState
  expandedRunes : Bool
  diffs : List Int
  deriving DecidableEq

/-- The row padding loop of WriteLines (highlight.go lines 471-476): fill the
columns from the written count up to the canvas width with blanks. -/
def padRow (canvas : Canvas) (cx yp : Nat) (fgC bgC : Nat) (fromX w : Nat) : Canvas :=
  ((List.range w).drop fromX).foldl
    (fun c x => c.writeRuneB (cx + x) yp fgC bgC ' ') canvas

/-- The tail of every row iteration (highlight.go lines 457-477): compute
runeLengthDiff, raise the expandedRunes flag when it exceeds 2, and pad the
rest of the row with blanks. -/
def finishRow (e : Editor) (bg : Nat) (w cx yp : Nat)
    (lineRuneCount lineStringCount : Nat) (canvas : Canvas)
    (q : QState) (disp : DispState) (st : LoopState) : LoopState :=
  let runeLengthDiff : Int := (lineStringCount : Int) - (lineRuneCount : Int)
  let expanded := if runeLengthDiff > 2 then true else st.expandedRunes
  let c2 := padRow canvas cx yp e.Foreground bg lineRuneCount w
  ⟨c2, q, disp, expanded, st.diffs ++ [runeLengthDiff]⟩

/-- One iteration y of the drawing loop of WriteLines (highlight.go lines
124-478): fetch and trim the line, expand tabs; on the highlighted path run
syntax.AsText (falling back to the chopped plain line printed outside the
canvas when it fails), the per-language dispatch, the rainbow overlay and the
cell-writing loop; on the plain path write the chopped line directly; then
finish the row. -/
def drawRow (ext : Ext) (e : Editor) (bg : Nat) (tabString : List Char)
    (w : Nat) (marker : List Char) (ignoreSingleQuotes : Bool)
    (offsetY : Int) (numLinesToDraw : Nat) (cx cy : Nat)
    (st : LoopState) (y : Nat) : LoopState :=
  let line0 := lineOf e (Int.ofNat y + offsetY)
  let line1 := trimRightStr line0
  let trimmedLine := trimLeftStr line1
  let line := replaceChar line1 '\t' tabString
  let yp := cy + y
  let res : Nat × Nat × Canvas × QState × DispState :=
    if e.highlightEnabled && !ext.envNoColor then
      match ext.asText (ext.escapeFn line) e.mode with
      | none =>
        let screenLine := ext.chopLine e line w
        (screenLine.length, byteLen screenLine, st.canvas, st.q, st.disp)
      | some textWithTags =>
        let d := ext.dispatch e y numLinesToDraw line trimmedLine textWithTags st.q st.disp
        let coloredString := d.1
        let trimmedLine2 := d.2.1
        let q1 := d.2.2.1
        let disp1 := d.2.2.2
        let raa0 := ext.extract coloredString
        let rq := rainbowOverlay ext e marker ignoreSingleQuotes q1 trimmedLine2 raa0
        let pr := printRunes ext e bg tabString w cx yp rq.1
          ⟨e.posOffsetX, 0, 0, 0, st.canvas⟩
        (pr.lineRuneCount, pr.lineStringCount, pr.canvas, rq.2, disp1)
    else
      let line2 := if e.mode = Mode.manPage then ext.handleManPageEscape line else line
      let screenLine := ext.chopLine e line2 w
      let c2 := st.canvas.write (cx + 0) yp e.Foreground e.Background screenLine
      (screenLine.length, byteLen screenLine, c2, st.q, st.disp)
  finishRow e bg w cx yp res.1 res.2.1 res.2.2.1 res.2.2.2.1 res.2.2.2.2 st

/-- The drawing loop of WriteLines after the range check: the pre-scans, the
quote-state replay, and the fold of drawRow over the rows to draw. -/
def writeLinesBody (ext : Ext) (e : Editor) (c : Canvas)
    (fromline toline : Int) (cx cy : Nat) : LoopState :=
  let bg := ext.backgroundAttr e.Background
  let tabString := List.replicate e.tabsSpacesPerTab ' '
  let w := c.width
  let numLinesToDraw := (toline - fromline).toNat
  let offsetY := fromline
  let inCodeBlock :=
    match e.mode with
    | Mode.markdown => markdownPre e fromline
    | Mode.python => pythonPre e fromline
    | _ => false
  let marker := e.singleLineCommentMarker
  let ignoreSingleQuotes := e.mode = Mode.lisp || e.mode = Mode.clojure
  let q0 := replayQuoteState ext e offsetY (ext.newQuoteState marker e.mode ignoreSingleQuotes)
  let init : LoopState := ⟨c, q0, ⟨inCodeBlock, false, false, false, []⟩, false, []⟩
  (List.range numLinesToDraw).foldl
    (drawRow ext e bg tabString w marker ignoreSingleQuotes offsetY numLinesToDraw cx cy) init

/-- The return step of WriteLines (highlight.go lines 480-485): the advisory
unsupported-unicode error after a completed draw, else nil. -/
def finalizeResult (fin : LoopState) : Canvas × Option GoError :=
  if fin.expandedRunes then (fin.canvas, some GoError.unicode) else (fin.canvas, none)

/-- WriteLines (highlight.go lines 23-486): reject an empty or inverted range
before any canvas write, otherwise draw all rows and report the advisory
unicode error, if any, afterwards. -/
def writeLines (ext : Ext) (e : Editor) (c : Canvas) (fromline toline : Int)
    (cx cy : Nat) : Canvas × Option GoError :=
  if fromline ≥ toline then
    (c, some GoError.range)
  else
    finalizeResult (writeLinesBody ext e c fromline toline cx cy)

end HL

/-- The return step yields nil or the advisory unicode error, nothing else. -/
theorem finalizeResult_snd (fin : HL.LoopState) :
    (HL.finalizeResult fin).2 = none ∨ (HL.finalizeResult fin).2 = some HL.GoError.unicode := by
  unfold HL.finalizeResult
  cases hb : fin.expandedRunes <;> simp [hb]

/-- C1: a call with fromline >= toline fails with the invalid-range error and
an unchanged canvas; with fromline < toline no range error occurs, and the
only error a call can return is the advisory unsupported-unicode one reported
after drawing, so the range error is the only hard failure surfaced before
drawing begins. -/
theorem writeLines_range_check (ext : HL.Ext) (e : HL.Editor) (c : HL.Canvas)
    (fromline toline : Int) (cx cy : Nat) :
    (fromline ≥ toline →
      HL.writeLines ext e c fromline toline cx cy = (c, some HL.GoError.range)) ∧
    (fromline < toline →
      (HL.writeLines ext e c fromline toline cx cy).2 ≠ some HL.GoError.range ∧
      ((HL.writeLines ext e c fromline toline cx cy).2 = none ∨
        (HL.writeLines ext e c fromline toline cx cy).2 = some HL.GoError.unicode)) := by
  constructor
  · intro h
    unfold HL.writeLines
    rw [if_pos h]
  · intro h
    have hn : ¬ fromline ≥ toline := not_le.mpr h
    unfold HL.writeLines
    rw [if_neg hn]
    rcases finalizeResult_snd (HL.writeLinesBody ext e c fromline toline cx cy) with h2 | h2
    · exact ⟨by rw [h2]; simp, Or.inl h2⟩
    · exact ⟨by rw [h2]; simp, Or.inr h2⟩

/-- A blank quote state for concrete instantiations. -/
def qBlank : HL.QState := ⟨false, false, false, false, false, 0, 0, 0, 0, 0⟩

/-- Concrete trivial collaborators for instantiating the render pipeline. -/
def extW : HL.Ext :=
  ⟨false, fun n => n, fun s => s, fun _ _ => some [], fun _ _ _ => qBlank,
   fun q _ => q, fun _ => true, fun _ _ => (0, 0),
   fun _ _ _ _ t tw q d => (tw, t, q, d),
   fun s => s.map (fun ch => ⟨ch, 0⟩),
   fun pb bb raa _ _ => (pb, bb, raa, none),
   fun _ l _ => l, fun l => l⟩

/-- A concrete editor holding the single line "ab". -/
def eW : HL.Editor :=
  ⟨[(0, strL "ab")], HL.Mode.other, true, false, [], 0, 7, 9, 4, 0, strL "//"⟩

/-- A concrete empty canvas of width 3. -/
def cW : HL.Canvas := ⟨3, []⟩

/-- Witness for C1: fromline = 5, toline = 3 gives the range error with no
cell written; fromline = 0, toline = 1 gives no range error. -/
theorem writeLines_range_check_witness :
    ((5 : Int) ≥ 3 ∧
      HL.writeLines extW eW cW 5 3 0 0 = (cW, some HL.GoError.range)) ∧
    ((0 : Int) < 1 ∧
      (HL.writeLines extW eW cW 0 1 0 0).2 ≠ some HL.GoError.range) :=
  ⟨⟨by decide, (writeLines_range_check extW eW cW 5 3 0 0).1 (by decide)⟩,
   ⟨by decide, ((writeLines_range_check extW eW cW 0 1 0 0).2 (by decide)).1⟩⟩

/-- C6: the trimmed line "  // foo(bar)" is classified as a single-line
comment (outside any comment or string), and whenever the lexical state marks
the line as a single-line comment the rainbow guard is false, so the rainbow
overlay leaves the cells and the state untouched. -/
theorem single_line_comment_suppresses_rainbow :
    V1.SingleLineComment (trimSpaceStr (strL "  // foo(bar)")) (strL "//") false false = true ∧
    (∀ (ext : HL.Ext) (e : HL.Editor) (q : HL.QState) (marker : List Char)
        (isq : Bool) (trimmedLine : List Char) (raa : List HL.RA),
      q.singleLineComment = true →
      HL.rainbowGuard ext e q = false ∧
      HL.rainbowOverlay ext e marker isq q trimmedLine raa = (raa, q)) := by
  constructor
  · decide
  · intro ext e q marker isq trimmedLine raa hq
    have hg : HL.rainbowGuard ext e q = false := by
      unfold HL.rainbowGuard
      rw [hq]
      simp
    refine ⟨hg, ?_⟩
    unfold HL.rainbowOverlay
    rw [hg]
    simp

/-- A quote state whose single-line-comment flag is set. -/
def qSLC : HL.QState := ⟨true, false, false, false, false, 0, 0, 0, 0, 0⟩

/-- Witness for C6: a single-line-comment state suppresses the overlay. -/
theorem single_line_comment_suppresses_rainbow_witness :
    qSLC.singleLineComment = true ∧
    (HL.rainbowGuard extW eW qSLC = false ∧
      HL.rainbowOverlay extW eW (strL "//") false qSLC [] [] = ([], qSLC)) :=
  ⟨rfl, single_line_comment_suppresses_rainbow.2 extW eW qSLC (strL "//") false [] [] rfl⟩

/-- C7: when the rainbow matcher reports errUnmatchedParenthesis, the running
parenthesis and brace counters are both reset to zero, and no call to
WriteLines ever returns the unmatched-parenthesis condition as an error. -/
theorem unmatched_parenthesis_resets_counters :
    (∀ (ext : HL.Ext) (e : HL.Editor) (marker : List Char) (isq : Bool)
        (q : HL.QState) (trimmedLine : List Char) (raa : List HL.RA),
      HL.rainbowGuard ext e q = true →
      (ext.rainbowParen (q.parCount - (ext.qParBraCount q trimmedLine).1)
          (q.braCount - (ext.qParBraCount q trimmedLine).2) raa marker isq).2.2.2 =
        some HL.GoError.unmatchedParenthesis →
      (HL.rainbowOverlay ext e marker isq q trimmedLine raa).2.parCount = 0 ∧
      (HL.rainbowOverlay ext e marker isq q trimmedLine raa).2.braCount = 0) ∧
    (∀ (ext : HL.Ext) (e : HL.Editor) (c : HL.Canvas) (fromline toline : Int) (cx cy : Nat),
      (HL.writeLines ext e c fromline toline cx cy).2 ≠ some HL.GoError.unmatchedParenthesis) := by
  constructor
  · intro ext e marker isq q trimmedLine raa hg herr
    unfold HL.rainbowOverlay
    rw [hg]
    simp [herr]
  · intro ext e c fromline toline cx cy
    unfold HL.writeLines
    by_cases h : fromline ≥ toline
    · rw [if_pos h]
      simp
    · rw [if_neg h]
      rcases finalizeResult_snd (HL.writeLinesBody ext e c fromline toline cx cy) with h2 | h2 <;>
        · rw [h2]
          simp

/-- Collaborators whose rainbow matcher always reports an unmatched
parenthesis. -/
def extParErr : HL.Ext :=
  { extW with rainbowParen := fun pb bb raa _ _ =>
      (pb, bb, raa, some HL.GoError.unmatchedParenthesis) }

/-- A concrete editor with rainbow parenthesis enabled. -/
def eRainbow : HL.Editor := { eW with rainbowParenthesis := true }

/-- A quote state with nonzero bracket counters. -/
def qPar : HL.QState := ⟨false, false, false, false, false, 0, 0, 0, 3, 2⟩

/-- Witness for C7: with an unmatched-parenthesis report, both counters of the
state coming out of the rainbow overlay are zero. -/
theorem unmatched_parenthesis_resets_counters_witness :
    HL.rainbowGuard extParErr eRainbow qPar = true ∧
    (extParErr.rainbowParen (qPar.parCount - (extParErr.qParBraCount qPar []).1)
        (qPar.braCount - (extParErr.qParBraCount qPar []).2) [] (strL "//") false).2.2.2 =
      some HL.GoError.unmatchedParenthesis ∧
    (HL.rainbowOverlay extParErr eRainbow (strL "//") false qPar [] []).2.parCount = 0 ∧
    (HL.rainbowOverlay extParErr eRainbow (strL "//") false qPar [] []).2.braCount = 0 :=
  ⟨rfl, rfl,
    (unmatched_parenthesis_resets_counters.1 extParErr eRainbow (strL "//") false qPar [] [] rfl rfl).1,
    (unmatched_parenthesis_resets_counters.1 extParErr eRainbow (strL "//") false qPar [] [] rfl rfl).2⟩

/-- Finishing a row preserves the correspondence between the expandedRunes
flag and the recorded per-row differences. -/
theorem finishRow_diff_inv (e : HL.Editor) (bg : Nat) (w cx yp : Nat)
    (lrc lsc : Nat) (canvas : HL.Canvas) (q : HL.QState) (disp : HL.DispState)
    (st : HL.LoopState)
    (hinv : st.expandedRunes = st.diffs.any (fun d => d > 2)) :
    (HL.finishRow e bg w cx yp lrc lsc canvas q disp st).expandedRunes =
      (HL.finishRow e bg w cx yp lrc lsc canvas q disp st).diffs.any (fun d => d > 2) := by
  unfold HL.finishRow
  simp only [List.any_append, List.any_cons, List.any_nil, Bool.or_false]
  by_cases hd : ((lsc : Int) - (lrc : Int)) > 2
  · simp [hd]
  · simp [hd, hinv]

/-- Drawing one row preserves the flag/differences correspondence. -/
theorem drawRow_diff_inv (ext : HL.Ext) (e : HL.Editor) (bg : Nat)
    (tabString : List Char) (w : Nat) (marker : List Char) (isq : Bool)
    (offsetY : Int) (num : Nat) (cx cy : Nat) (st : HL.LoopState) (y : Nat)
    (hinv : st.expandedRunes = st.diffs.any (fun d => d > 2)) :
    (HL.drawRow ext e bg tabString w marker isq offsetY num cx cy st y).expandedRunes =
      (HL.drawRow ext e bg tabString w marker isq offsetY num cx cy st y).diffs.any
        (fun d => d > 2) := by
  unfold HL.drawRow
  exact finishRow_diff_inv _ _ _ _ _ _ _ _ _ _ _ hinv

/-- The whole drawing loop preserves the flag/differences correspondence. -/
theorem foldl_drawRow_diff_inv (ext : HL.Ext) (e : HL.Editor) (bg : Nat)
    (tabString : List Char) (w : Nat) (marker : List Char) (isq : Bool)
    (offsetY : Int) (num : Nat) (cx cy : Nat) :
    ∀ (ys : List Nat) (st : HL.LoopState),
      st.expandedRunes = st.diffs.any (fun d => d > 2) →
      (ys.foldl (HL.drawRow ext e bg tabString w marker isq offsetY num cx cy) st).expandedRunes =
        (ys.foldl (HL.drawRow ext e bg tabString w marker isq offsetY num cx cy) st).diffs.any
          (fun d => d > 2) := by
  intro ys
  induction ys with
  | nil => intro st h; exact h
  | cons y t ih =>
    intro st h
    rw [List.foldl_cons]
    exact ih _ (drawRow_diff_inv ext e bg tabString w marker isq offsetY num cx cy st y h)

/-- After the drawing loop, the expandedRunes flag holds exactly when some
row's string/rune length difference exceeded the slack of 2. -/
theorem writeLinesBody_diff_inv (ext : HL.Ext) (e : HL.Editor) (c : HL.Canvas)
    (fromline toline : Int) (cx cy : Nat) :
    (HL.writeLinesBody ext e c fromline toline cx cy).expandedRunes =
      (HL.writeLinesBody ext e c fromline toline cx cy).diffs.any (fun d => d > 2) := by
  unfold HL.writeLinesBody
  exact foldl_drawRow_diff_inv _ _ _ _ _ _ _ _ _ _ _ _ _ rfl

/-- C9: for a valid range, WriteLines returns the canvas of the completed
drawing loop in every case, together with the unsupported-unicode error
exactly when some rendered row's string-length count exceeded its rune count
by more than the slack of 2, and nil otherwise: the error is decided after
every row has been drawn and padded. -/
theorem unicode_error_after_full_draw (ext : HL.Ext) (e : HL.Editor) (c : HL.Canvas)
    (fromline toline : Int) (cx cy : Nat) (h : fromline < toline) :
    HL.writeLines ext e c fromline toline cx cy =
      ((HL.writeLinesBody ext e c fromline toline cx cy).canvas,
        if (HL.writeLinesBody ext e c fromline toline cx cy).diffs.any (fun d => d > 2)
        then some HL.GoError.unicode else none) := by
  unfold HL.writeLines
  rw [if_neg (not_le.mpr h)]
  unfold HL.finalizeResult
  rw [writeLinesBody_diff_inv]
  cases hb : (HL.writeLinesBody ext e c fromline toline cx cy).diffs.any (fun d => d > 2) <;>
    simp [hb]

/-- Witness for C9 at fromline = 0, toline = 1 on concrete collaborators. -/
theorem unicode_error_after_full_draw_witness :
    (0 : Int) < 1 ∧
    HL.writeLines extW eW cW 0 1 0 0 =
      ((HL.writeLinesBody extW eW cW 0 1 0 0).canvas,
        if (HL.writeLinesBody extW eW cW 0 1 0 0).diffs.any (fun d => d > 2)
        then some HL.GoError.unicode else none) :=
  ⟨by decide, unicode_error_after_full_draw extW eW cW 0 1 0 0 (by decide)⟩
